import Mathlib

/-!
A shallow embedding of `trss.py`, a terminal RSS feed reader, together with
proofs settling the specification's claims against it.  The item store
(class `Feeds`), the event bus (class `Bus`), the list widget (class `List`)
and the detail widget (class `Detail`) are translated into pure Lean
functions over explicit state; fallible operations return `Option`.
-/

set_option autoImplicit false

namespace Trss

/-- A feed item as stored in `Feeds.items`: a record carrying the entry
fields `link`, `title`, `summary`, `updated` plus the fields `source` and
`read` stamped by `Feeds.parse_feed` (trss.py lines 64-68). -/
structure Item where
  link : String
  title : String
  summary : String
  source : String
  updated : String
  read : Bool
  deriving DecidableEq, Repr

/-- The events published on the `Bus` (trss.py lines 78-80). -/
inductive Event where
  | itemsLoaded (items : List Item)
  | itemActivated (item : Option Item)
  | itemRead (link : String)
  deriving DecidableEq, Repr

/-- `Feeds.mark_read` (trss.py lines 71-75): set the `read` flag of every
stored item whose `link` equals the argument (the loop has no break, so
every match is updated), then emit exactly one `ITEM_READ` event carrying
the link.  Returns the updated item list and the list of emitted events. -/
def mark_read (items : List Item) (link : String) (read : Bool) :
    List Item × List Event :=
  (items.map fun it => if it.link = link then { it with read := read } else it,
   [Event.itemRead link])

/-- Mapping a function that fixes every element of a list is the identity. -/
theorem map_id_of_forall {α : Type} {f : α → α} {l : List α}
    (h : ∀ a ∈ l, f a = a) : l.map f = l := by
  induction l with
  | nil => rfl
  | cons x xs ih =>
    simp only [List.map_cons]
    rw [h x (by simp), ih (fun a ha => h a (by simp [ha]))]

/-- Overwriting the `read` field with the value it already holds is the
identity on items. -/
theorem item_update_read_self {r : Bool} (a : Item) (h : a.read = r) :
    { a with read := r } = a := by
  cases a
  cases h
  rfl

/-- C9: every `mark_read` call publishes exactly one `ItemRead` event
carrying the link, regardless of whether any item matches; afterwards every
stored item with that link has its `read` flag equal to the argument; and
when no stored item carries the link the item list is unchanged. -/
theorem mark_read_publishes_once (items : List Item) (link : String) (r : Bool) :
    (mark_read items link r).2 = [Event.itemRead link]
      ∧ (∀ it ∈ (mark_read items link r).1, it.link = link → it.read = r)
      ∧ ((∀ it ∈ items, it.link ≠ link) → (mark_read items link r).1 = items) := by
  refine ⟨rfl, ?_, ?_⟩
  · intro it hmem hlink
    simp only [mark_read, List.mem_map] at hmem
    obtain ⟨a, _, rfl⟩ := hmem
    by_cases h : a.link = link
    · simp [h]
    · rw [if_neg h] at hlink ⊢
      exact absurd hlink h
  · intro h
    simp only [mark_read]
    exact map_id_of_forall fun a ha => if_neg (h a ha)

/-- A sample unread item used for concrete instantiations. -/
def itemA : Item :=
  { link := "a", title := "A", summary := "sa", source := "X",
    updated := "2", read := false }

/-- A sample already-read item used for concrete instantiations. -/
def itemB : Item :=
  { link := "b", title := "B", summary := "sb", source := "X",
    updated := "1", read := true }

/-- Witness for C9 at a concrete store: the event is published, the flag is
set, and a non-matching call leaves the store unchanged. -/
theorem mark_read_publishes_once_witness :
    (mark_read [itemA] "a" true).2 = [Event.itemRead "a"]
      ∧ (mark_read [itemA] "z" true).1 = [itemA] :=
  ⟨(mark_read_publishes_once [itemA] "a" true).1,
   (mark_read_publishes_once [itemA] "z" true).2.2 (by decide)⟩

/-- C8 (amended): `mark_read link true` followed by `mark_read link false`
restores the store exactly when every item carrying the link was originally
unread; the pair of calls always leaves matching items with `read = false`. -/
theorem mark_read_roundtrip (items : List Item) (link : String)
    (h : ∀ it ∈ items, it.link = link → it.read = false) :
    (mark_read (mark_read items link true).1 link false).1 = items := by
  simp only [mark_read, List.map_map]
  apply map_id_of_forall
  intro a ha
  by_cases hl : a.link = link
  · simp only [Function.comp, if_pos hl]
    exact item_update_read_self a (h a ha hl)
  · simp only [Function.comp, if_neg hl]

/-- Counterexample to C8 as stated: for an item whose `read` flag is
originally `true`, marking it read and then unread does not restore the
original flag value. -/
theorem mark_read_roundtrip_cex :
    (mark_read (mark_read [itemB] "b" true).1 "b" false).1 ≠ [itemB]
      ∧ itemB.read = true := by decide

/-- Witness for the amended C8: on an originally-unread item the two calls
restore the store. -/
theorem mark_read_roundtrip_witness :
    (mark_read (mark_read [itemA] "a" true).1 "a" false).1 = [itemA] :=
  mark_read_roundtrip [itemA] "a" (by decide)

/-- A raw feed entry, as found in `feedparser.parse(url)` under the key
`entries` (trss.py line 61). -/
structure Entry where
  link : String
  title : String
  summary : String
  updated : String
  deriving DecidableEq, Repr

/-- The item appended by `Feeds.parse_feed` for an entry not already stored:
the entry itself with `read` initialised to `false` and `source` stamped
with the feed title (trss.py lines 64-68). -/
def entryItem (title : String) (e : Entry) : Item :=
  { link := e.link, title := e.title, summary := e.summary,
    source := title, updated := e.updated, read := false }

/-- `Feeds.find_one(link=l)` (trss.py lines 47-56): the first stored item
whose `link` field equals `l`, if any.  (The Python method matches on
arbitrary keyword fields; every call site passes exactly `link`.) -/
def find_one (items : List Item) (l : String) : Option Item :=
  items.find? fun it => it.link == l

/-- One iteration of the entry loop in `Feeds.parse_feed` (trss.py lines
61-68): append the stamped entry unless an item with its link exists. -/
def parseStep (title : String) (items : List Item) (e : Entry) : List Item :=
  match find_one items e.link with
  | some _ => items
  | none => items ++ [entryItem title e]

/-- `Feeds.parse_feed` (trss.py lines 59-68), given the entries the fetch
collaborator returned for the url. -/
def parse_feed (title : String) (entries : List Entry) (items : List Item) :
    List Item :=
  entries.foldl (parseStep title) items

/-- The item-collection effect of `Feeds.refresh` (trss.py lines 41-45):
parse every configured source in order.  `sources` is the ordered
title-to-url association loaded from the urls file, and `fetch` is the
fetch collaborator giving the entries `feedparser.parse(url)` yields for a
url; `feedparser.parse` returns a result with an empty entry list on a
network or parse failure instead of raising, so a failing source is one
whose fetch yields the empty list. -/
def refresh (fetch : String → List Entry) (sources : List (String × String))
    (items : List Item) : List Item :=
  sources.foldl (fun acc p => parse_feed p.1 (fetch p.2) acc) items

/-- A sequence of `refresh` calls, each with its own fetch results and
source list, run left to right. -/
def refreshSeq (calls : List ((String → List Entry) × List (String × String)))
    (items : List Item) : List Item :=
  calls.foldl (fun acc c => refresh c.1 c.2 acc) items

/-- The full observable outcome of `Feeds.refresh` (trss.py lines 41-45):
the final item collection, the collection written by `save()` (line 44),
and the events emitted (line 45). -/
structure RefreshOut where
  items : List Item
  saved : List Item
  events : List Event

/-- `Feeds.refresh` including its `save()` and `ITEMS_LOADED` emission
(trss.py lines 41-45). -/
def refreshFull (fetch : String → List Entry) (sources : List (String × String))
    (items0 : List Item) : RefreshOut :=
  { items := refresh fetch sources items0,
    saved := refresh fetch sources items0,
    events := [Event.itemsLoaded (refresh fetch sources items0)] }

/-- Some stored item carries the given link. -/
def hasLink (items : List Item) (l : String) : Prop :=
  ∃ it ∈ items, it.link = l

theorem parse_feed_cons (t : String) (e : Entry) (es : List Entry)
    (items : List Item) :
    parse_feed t (e :: es) items = parse_feed t es (parseStep t items e) := rfl

theorem refresh_cons (f : String → List Entry) (p : String × String)
    (ps : List (String × String)) (items : List Item) :
    refresh f (p :: ps) items = refresh f ps (parse_feed p.1 (f p.2) items) := rfl

theorem find_one_eq_none_iff (items : List Item) (l : String) :
    find_one items l = none ↔ ∀ it ∈ items, it.link ≠ l := by
  simp [find_one, List.find?_eq_none]

/-- `parseStep` either leaves the store unchanged (link already present) or
appends exactly the stamped entry, whose link is fresh. -/
theorem parseStep_exists_append (t : String) (items : List Item) (e : Entry) :
    parseStep t items e = items
      ∨ (parseStep t items e = items ++ [entryItem t e]
          ∧ ∀ a ∈ items, a.link ≠ e.link) := by
  unfold parseStep
  cases hf : find_one items e.link with
  | some x => exact Or.inl rfl
  | none => exact Or.inr ⟨rfl, (find_one_eq_none_iff items e.link).mp hf⟩

/-- `parse_feed` only appends: it never modifies, reorders or removes the
items already stored, and every appended item has a link fresh with respect
to the initial store. -/
theorem parse_feed_exists_append (t : String) (entries : List Entry) :
    ∀ items : List Item, ∃ new : List Item,
      parse_feed t entries items = items ++ new
        ∧ ∀ n ∈ new, ∀ a ∈ items, n.link ≠ a.link := by
  induction entries with
  | nil => exact fun items => ⟨[], by simp [parse_feed]⟩
  | cons e es ih =>
    intro items
    rw [parse_feed_cons]
    rcases parseStep_exists_append t items e with h | ⟨h, hfresh⟩
    · rw [h]; exact ih items
    · rw [h]
      obtain ⟨new, hnew, hf⟩ := ih (items ++ [entryItem t e])
      refine ⟨entryItem t e :: new, ?_, ?_⟩
      · rw [hnew]; simp
      · intro n hn a ha
        rcases List.mem_cons.mp hn with rfl | hn
        · exact Ne.symm (hfresh a ha)
        · exact hf n hn a (List.mem_append_left _ ha)

theorem mem_parse_feed {t : String} {es : List Entry} {items : List Item}
    {a : Item} (ha : a ∈ items) : a ∈ parse_feed t es items := by
  obtain ⟨new, hnew, -⟩ := parse_feed_exists_append t es items
  rw [hnew]
  exact List.mem_append_left _ ha

theorem parse_feed_hasLink_mono {items : List Item} {l : String}
    (h : hasLink items l) (t : String) (es : List Entry) :
    hasLink (parse_feed t es items) l := by
  obtain ⟨it, hit, he⟩ := h
  exact ⟨it, mem_parse_feed hit, he⟩

/-- After `parseStep`, an item carrying the entry's link is present. -/
theorem parseStep_hasLink (t : String) (items : List Item) (e : Entry) :
    hasLink (parseStep t items e) e.link := by
  unfold parseStep
  cases hf : find_one items e.link with
  | some x =>
    unfold find_one at hf
    refine ⟨x, List.mem_of_find?_eq_some hf, ?_⟩
    simpa using List.find?_some hf
  | none => exact ⟨entryItem t e, by simp, rfl⟩

/-- After `parse_feed`, every entry of the parsed feed has an item carrying
its link. -/
theorem parse_feed_hasLink (t : String) (e : Entry) :
    ∀ es : List Entry, e ∈ es → ∀ items : List Item,
      hasLink (parse_feed t es items) e.link := by
  intro es
  induction es with
  | nil => intro he; exact absurd he (List.not_mem_nil e)
  | cons e0 es ih =>
    intro he items
    rw [parse_feed_cons]
    rcases List.mem_cons.mp he with rfl | hmem
    · exact parse_feed_hasLink_mono (parseStep_hasLink t items e) t es
    · exact ih hmem (parseStep t items e0)

theorem parseStep_noop {t : String} {items : List Item} {e : Entry}
    (h : hasLink items e.link) : parseStep t items e = items := by
  unfold parseStep
  cases hf : find_one items e.link with
  | some x => rfl
  | none =>
    obtain ⟨it, hit, hl⟩ := h
    exact absurd hl ((find_one_eq_none_iff items e.link).mp hf it hit)

theorem parse_feed_noop (t : String) : ∀ es : List Entry, ∀ items : List Item,
    (∀ e ∈ es, hasLink items e.link) → parse_feed t es items = items := by
  intro es
  induction es with
  | nil => intro items _; rfl
  | cons e es ih =>
    intro items h
    rw [parse_feed_cons, parseStep_noop (h e (by simp))]
    exact ih items fun e' he' => h e' (by simp [he'])

theorem mem_refresh (f : String → List Entry) :
    ∀ ss : List (String × String), ∀ items : List Item, ∀ a : Item,
      a ∈ items → a ∈ refresh f ss items := by
  intro ss
  induction ss with
  | nil => intro items a ha; exact ha
  | cons p ps ih =>
    intro items a ha
    rw [refresh_cons]
    exact ih _ a (mem_parse_feed ha)

theorem refresh_hasLink_mono (f : String → List Entry)
    (ss : List (String × String)) (items : List Item) (l : String)
    (h : hasLink items l) : hasLink (refresh f ss items) l := by
  obtain ⟨it, hit, he⟩ := h
  exact ⟨it, mem_refresh f ss items it hit, he⟩

/-- After `refresh`, every entry fetched for any configured source — also
when other sources failed and fetched nothing — has an item carrying its
link in the resulting store. -/
theorem refresh_hasLink (f : String → List Entry) (p : String × String)
    (e : Entry) :
    ∀ ss : List (String × String), p ∈ ss → e ∈ f p.2 →
      ∀ items : List Item, hasLink (refresh f ss items) e.link := by
  intro ss
  induction ss with
  | nil => intro hp; exact absurd hp (List.not_mem_nil p)
  | cons q qs ih =>
    intro hp he items
    rw [refresh_cons]
    rcases List.mem_cons.mp hp with rfl | hp'
    · exact refresh_hasLink_mono f qs _ e.link
        (parse_feed_hasLink p.1 e (f p.2) he items)
    · exact ih hp' he _

theorem refresh_noop (f : String → List Entry) :
    ∀ ss : List (String × String), ∀ items : List Item,
      (∀ p ∈ ss, ∀ e ∈ f p.2, hasLink items e.link) →
      refresh f ss items = items := by
  intro ss
  induction ss with
  | nil => intro items _; rfl
  | cons p ps ih =>
    intro items h
    rw [refresh_cons, parse_feed_noop p.1 (f p.2) items (h p (by simp))]
    exact ih items fun q hq e he => h q (by simp [hq]) e he

theorem refresh_idem (f : String → List Entry) (ss : List (String × String))
    (items : List Item) :
    refresh f ss (refresh f ss items) = refresh f ss items :=
  refresh_noop f ss _ fun p hp e he => refresh_hasLink f p e ss hp he items

theorem parseStep_nodup {t : String} {items : List Item} {e : Entry}
    (h : (items.map Item.link).Nodup) :
    ((parseStep t items e).map Item.link).Nodup := by
  rcases parseStep_exists_append t items e with heq | ⟨heq, hfresh⟩
  · rw [heq]; exact h
  · rw [heq]
    simp only [List.map_append, List.map_cons, List.map_nil]
    rw [List.nodup_append]
    refine ⟨h, List.nodup_singleton _, ?_⟩
    intro x hx hx2
    obtain ⟨a, ha, rfl⟩ := List.mem_map.mp hx
    have : a.link = (entryItem t e).link := by simpa using hx2
    exact hfresh a ha this

theorem parse_feed_nodup (t : String) : ∀ es : List Entry, ∀ items : List Item,
    (items.map Item.link).Nodup → ((parse_feed t es items).map Item.link).Nodup := by
  intro es
  induction es with
  | nil => intro items h; exact h
  | cons e es ih =>
    intro items h
    rw [parse_feed_cons]
    exact ih _ (parseStep_nodup h)

theorem refresh_nodup (f : String → List Entry) :
    ∀ ss : List (String × String), ∀ items : List Item,
      (items.map Item.link).Nodup → ((refresh f ss items).map Item.link).Nodup := by
  intro ss
  induction ss with
  | nil => intro items h; exact h
  | cons p ps ih =>
    intro items h
    rw [refresh_cons]
    exact ih _ (parse_feed_nodup p.1 (f p.2) items h)

/-- C4: for any sequence of refresh calls starting from a store whose links
are pairwise distinct, the resulting store never contains two items with
the same link; and re-running `refresh` with the same fetch results is the
identity on the item collection. -/
theorem refresh_dedup_idem :
    (∀ (calls : List ((String → List Entry) × List (String × String)))
        (items : List Item), (items.map Item.link).Nodup →
        ((refreshSeq calls items).map Item.link).Nodup)
      ∧ ∀ (fetch : String → List Entry) (sources : List (String × String))
          (items : List Item),
          refresh fetch sources (refresh fetch sources items)
            = refresh fetch sources items := by
  constructor
  · intro calls
    induction calls with
    | nil => intro items h; exact h
    | cons c cs ih =>
      intro items h
      show ((refreshSeq cs (refresh c.1 c.2 items)).map Item.link).Nodup
      exact ih _ (refresh_nodup c.1 c.2 items h)
  · exact refresh_idem

/-- A sample raw entry used for concrete instantiations. -/
def entryA : Entry := { link := "a", title := "A", summary := "sa", updated := "2" }

/-- A fetch collaborator returning one entry for every url. -/
def fetchA : String → List Entry := fun _ => [entryA]

/-- A fetch collaborator where every source but the url `ug` fails, i.e.
yields no entries. -/
def fetchMixed : String → List Entry := fun u => if u = "ug" then [entryA] else []

/-- Witness for C4 at a concrete refresh sequence and store. -/
theorem refresh_dedup_idem_witness :
    ((refreshSeq [(fetchA, [("X", "u")])] []).map Item.link).Nodup
      ∧ refresh fetchA [("X", "u")] (refresh fetchA [("X", "u")] [])
          = refresh fetchA [("X", "u")] [] :=
  ⟨refresh_dedup_idem.1 [(fetchA, [("X", "u")])] [] (by decide),
   refresh_dedup_idem.2 fetchA [("X", "u")] []⟩

/-- C10: `refresh` never modifies the items already stored — the old store
is exactly a prefix of the new one, every field and the relative order of
existing items included — and every appended item has a link no existing
item carries, so a fetched candidate matching an existing link contributes
nothing. -/
theorem refresh_frame (fetch : String → List Entry)
    (sources : List (String × String)) :
    ∀ items : List Item, ∃ new : List Item,
      refresh fetch sources items = items ++ new
        ∧ ∀ n ∈ new, ∀ a ∈ items, n.link ≠ a.link := by
  induction sources with
  | nil => intro items; exact ⟨[], by simp [refresh]⟩
  | cons p ps ih =>
    intro items
    rw [refresh_cons]
    obtain ⟨n1, h1, hf1⟩ := parse_feed_exists_append p.1 (fetch p.2) items
    rw [h1]
    obtain ⟨n2, h2, hf2⟩ := ih (items ++ n1)
    refine ⟨n1 ++ n2, ?_, ?_⟩
    · rw [h2, List.append_assoc]
    · intro n hn a ha
      rcases List.mem_append.mp hn with hn1 | hn2
      · exact hf1 n hn1 a ha
      · exact hf2 n hn2 a (List.mem_append_left _ ha)

/-- Witness for C10 at a concrete store and fetch. -/
theorem refresh_frame_witness :
    ∃ new : List Item,
      refresh fetchA [("X", "u")] [itemB] = [itemB] ++ new
        ∧ ∀ n ∈ new, ∀ a ∈ [itemB], n.link ≠ a.link :=
  refresh_frame fetchA [("X", "u")] [itemB]

/-- C7: whatever the fetch collaborator returns for each source — a failing
source being one whose fetch yields no entries, as `feedparser.parse`
reports failures — `refresh` processes every source: the final collection
is the old store plus appended new items, it is persisted as-is, a single
`ItemsLoaded` event carrying it is published, and every entry fetched for
any source is represented in it. -/
theorem refresh_isolated_failure (fetch : String → List Entry)
    (sources : List (String × String)) (items0 : List Item) :
    (refreshFull fetch sources items0).saved
        = (refreshFull fetch sources items0).items
      ∧ (refreshFull fetch sources items0).events
          = [Event.itemsLoaded (refreshFull fetch sources items0).items]
      ∧ (∃ new : List Item,
          (refreshFull fetch sources items0).items = items0 ++ new)
      ∧ ∀ p ∈ sources, ∀ e ∈ fetch p.2,
          hasLink (refreshFull fetch sources items0).items e.link := by
  refine ⟨rfl, rfl, ?_, ?_⟩
  · obtain ⟨new, h, -⟩ := refresh_frame fetch sources items0
    exact ⟨new, h⟩
  · intro p hp e he
    exact refresh_hasLink fetch p e sources hp he items0

/-- Witness for C7: with a first source that fails (fetches nothing), the
entry of the second source still reaches the saved and published store. -/
theorem refresh_isolated_failure_witness :
    fetchMixed "ubad" = []
      ∧ hasLink (refreshFull fetchMixed [("Bad", "ubad"), ("Good", "ug")] []).items
          entryA.link :=
  ⟨rfl,
   (refresh_isolated_failure fetchMixed [("Bad", "ubad"), ("Good", "ug")] []).2.2.2
      ("Good", "ug") (by decide) entryA (by decide)⟩

/-- `Bus.emit` (trss.py lines 90-92) runs `for fn in self.events.get(name, [])`
over the live handler list: the Python for-statement fetches successive
indices of the very list object that `Bus.register` (lines 85-88) appends
to, so a handler registered during the dispatch is reached by the same
loop.  `reg h` gives the handlers that handler `h` registers for the
emitted kind when it is invoked, `i` is the loop index, `lst` the current
handler list, and `fuel` bounds the number of invocations (the Python loop
runs unboundedly if handlers keep registering).  Returns the invocation
log. -/
def emitFrom {H : Type} (reg : H → List H) : Nat → Nat → List H → List H
  | 0, _, _ => []
  | fuel + 1, i, lst =>
    match lst[i]? with
    | none => []
    | some h => h :: emitFrom reg fuel (i + 1) (lst ++ reg h)

/-- `Bus.emit` for one event kind, started at loop index 0. -/
def emit {H : Type} (reg : H → List H) (fuel : Nat) (handlers : List H) :
    List H :=
  emitFrom reg fuel 0 handlers

/-- Running the emit loop over a suffix of handlers none of which registers
anything invokes exactly that suffix. -/
theorem emitFrom_flat {H : Type} (reg : H → List H) :
    ∀ tl pre : List H, (∀ g ∈ tl, reg g = []) →
      emitFrom reg tl.length pre.length (pre ++ tl) = tl := by
  intro tl
  induction tl with
  | nil => intro pre _; rfl
  | cons g tl ih =>
    intro pre h
    show emitFrom reg (tl.length + 1) pre.length (pre ++ g :: tl) = g :: tl
    unfold emitFrom
    rw [List.getElem?_append_right (Nat.le_refl pre.length)]
    simp only [Nat.sub_self, List.getElem?_cons_zero]
    rw [h g (by simp)]
    have : (pre ++ g :: tl) ++ [] = (pre ++ [g]) ++ tl := by simp
    rw [this]
    have hl : pre.length + 1 = (pre ++ [g]).length := by simp
    rw [hl, ih (pre ++ [g]) (fun a ha => h a (by simp [ha]))]

/-- The emit loop over `pre ++ (lst ++ tl)` starting at index `pre.length`,
when handlers registered by `lst` register nothing further and `tl`
registers nothing: every handler of `lst` and `tl` is invoked, and so is
every handler `lst` registers, in append order. -/
theorem emitFrom_spec {H : Type} (reg : H → List H) :
    ∀ lst tl pre : List H,
      (∀ h ∈ lst, ∀ g ∈ reg h, reg g = []) → (∀ g ∈ tl, reg g = []) →
      emitFrom reg (lst.length + tl.length + ((lst.map reg).flatten).length)
          pre.length (pre ++ (lst ++ tl))
        = lst ++ tl ++ (lst.map reg).flatten := by
  intro lst
  induction lst with
  | nil =>
    intro tl pre _ htl
    simpa using emitFrom_flat reg tl pre htl
  | cons h lst ih =>
    intro tl pre hreg htl
    have hfuel : (h :: lst).length + tl.length + (((h :: lst).map reg).flatten).length
        = (lst.length + (tl ++ reg h).length + ((lst.map reg).flatten).length) + 1 := by
      simp only [List.length_cons, List.map_cons, List.flatten_cons,
        List.length_append]
      omega
    rw [hfuel]
    unfold emitFrom
    rw [show pre ++ (h :: lst ++ tl) = pre ++ (h :: (lst ++ tl)) by simp]
    rw [List.getElem?_append_right (Nat.le_refl pre.length)]
    simp only [Nat.sub_self, List.getElem?_cons_zero]
    have harr : (pre ++ (h :: (lst ++ tl))) ++ reg h
        = (pre ++ [h]) ++ (lst ++ (tl ++ reg h)) := by simp
    rw [harr]
    have hl : pre.length + 1 = (pre ++ [h]).length := by simp
    rw [hl]
    rw [ih (tl ++ reg h) (pre ++ [h])
      (fun a ha => hreg a (by simp [ha]))
      (by
        intro g hg
        rcases List.mem_append.mp hg with hg1 | hg2
        · exact htl g hg1
        · exact hreg h (by simp) g hg2)]
    simp

/-- C3 (amended): `Bus.emit` iterates the live handler list rather than a
snapshot, so handlers registered for the emitted kind by an invoked handler
ARE invoked by that same emit call, appended after all previously
registered handlers.  (Stated with the registered handlers themselves
registering nothing further, which makes the dispatch finite.) -/
theorem emit_live_list {H : Type} (reg : H → List H) (handlers : List H)
    (hflat : ∀ h ∈ handlers, ∀ g ∈ reg h, reg g = []) :
    emit reg (handlers.length + ((handlers.map reg).flatten).length) handlers
      = handlers ++ (handlers.map reg).flatten := by
  have := emitFrom_spec reg handlers [] [] hflat (by simp)
  simpa [emit] using this

/-- A demonstration registration effect: handler 0 registers handler 1 for
the emitted kind during dispatch; no other handler registers anything. -/
def regDemo : Nat → List Nat := fun h => if h = 0 then [1] else []

/-- Counterexample to C3 as stated: on a bus with handler 0 alone
registered, handler 0 registering handler 1 during dispatch makes the same
emit call invoke handler 1 as well. -/
theorem emit_snapshot_cex :
    regDemo 0 = [1]
      ∧ emit regDemo 2 [0] = [0, 1]
      ∧ 1 ∈ emit regDemo 2 [0]
      ∧ 1 ∉ ([0] : List Nat) := by decide

/-- Witness for the amended C3 at the demonstration bus. -/
theorem emit_live_list_witness :
    emit regDemo ([0].length + (([0].map regDemo).flatten).length) [0]
      = [0] ++ ([0].map regDemo).flatten :=
  emit_live_list regDemo [0] (by decide)

/-- A row of the ListView projection.  `List.render_again` (trss.py lines
151-181) builds `AttrText` labels whose `num` field is `-1` for a source
group header — its text carrying the source name and a count — and
`i ≥ 0` for a row referencing index `i` of the filtered item list; the
tagged variant replaces that sentinel convention. -/
inductive Row where
  | header (source : String) (count : Nat)
  | item (idx : Nat)
  deriving DecidableEq, Repr

/-- The keyword query passed to `List.filter_by` (trss.py lines 117-128).
Only two shapes ever occur: `self.query` holds at most a `read` key
(lines 115, 234-238), and `render_again` passes exactly a `source` key
(line 162); a `none` field models an absent key. -/
structure Query where
  read : Option Bool
  source : Option String
  deriving DecidableEq, Repr

/-- The per-item acceptance test of `List.filter_by`: every present query
field must equal the item's field. -/
def queryMatches (q : Query) (it : Item) : Bool :=
  (match q.read with | none => true | some v => it.read == v)
    && (match q.source with | none => true | some v => it.source == v)

/-- `List.filter_by` (trss.py lines 117-128), over the full unfiltered
collection it iterates (`self.source_items`). -/
def filter_by (q : Query) (source_items : List Item) : List Item :=
  source_items.filter (queryMatches q)

/-- The Python key tuple comparison for line 131: `x` sorts no later than
`y` in the descending order iff the key `(source, updated)` of `x` is
lexicographically at least that of `y`. -/
def keyGe (x y : Item) : Bool :=
  decide (y.source < x.source)
    || (x.source == y.source && decide (y.updated ≤ x.updated))

/-- Stable insertion for the descending sort: `x` is placed before the
first element whose key is not above `x`'s, so elements with equal keys
keep their original relative order. -/
def insertDesc (x : Item) : List Item → List Item
  | [] => [x]
  | y :: ys => if keyGe x y then x :: y :: ys else y :: insertDesc x ys

/-- `sorted(..., key=lambda i: (i.source, i.updated), reverse=True)` of
trss.py line 131: the stable descending sort by `(source, updated)`.
Python's `sorted` is a stable sort under the reversed comparison, and a
stable sort is determined uniquely by its comparator, so this insertion
sort computes the same list. -/
def sortDesc : List Item → List Item
  | [] => []
  | x :: xs => insertDesc x (sortDesc xs)

/-- `List.filter` — the method `filter` of the widget (trss.py lines
130-131): the collection filtered by the active query (`q` is the optional
value of the `read` key of `self.query`) and stably sorted descending. -/
def filterSort (q : Option Bool) (source_items : List Item) : List Item :=
  sortDesc (filter_by { read := q, source := none } source_items)

/-- The row-construction loop of `List.render_again` (trss.py lines
154-176): walking the filtered items, a group header is prepended whenever
the source differs from `last_source` (initially `None`, which differs
from every string), its count computed as
`len(self.filter_by(source=last_source))` over the full unfiltered
collection `si`; each item contributes a row carrying its index `i`. -/
def buildRowsGo (si : List Item) : Option String → Nat → List Item → List Row
  | _, _, [] => []
  | last, i, it :: rest =>
    if last = some it.source then
      Row.item i :: buildRowsGo si (some it.source) (i + 1) rest
    else
      Row.header it.source
          (filter_by { read := none, source := some it.source } si).length
        :: Row.item i :: buildRowsGo si (some it.source) (i + 1) rest

/-- The full projection `self.line_to_item` built by `List.render_again`
(trss.py lines 151-176). -/
def build_rows (si : List Item) (items : List Item) : List Row :=
  buildRowsGo si none 0 items

/-- The state of the `List` widget (trss.py lines 102-115): the full
unfiltered collection, the optional value of the `read` key of
`self.query`, the filtered sorted item list, the row projection, the
selection index and the pad scroll offset. -/
structure ListState where
  source_items : List Item
  query : Option Bool
  items : List Item
  line_to_item : List Row
  selected : Nat
  pad_y : Nat

/-- The widget state after `List.__init__` (trss.py lines 110-115): empty
collections, selection and scroll at 0, query showing only unread items. -/
def initList : ListState :=
  { source_items := [], query := some false, items := [], line_to_item := [],
    selected := 0, pad_y := 0 }

/-- `List.selected_item` (trss.py lines 133-140): none when the filtered
list is empty or the selected row is a group header (negative `num`);
otherwise the referenced filtered item.  The Python indexing raises on an
out-of-range index, which never occurs in the modeled flows; out-of-range
lookups are modeled as none. -/
def selected_item (s : ListState) : Option Item :=
  if s.items.isEmpty then none
  else
    match s.line_to_item[s.selected]? with
    | some (Row.header _ _) => none
    | some (Row.item n) => s.items[n]?
    | none => none

/-- `List.render_again` (trss.py lines 151-181): rebuild `line_to_item`
from the current collections and emit `ITEM_ACTIVATE` carrying the
currently selected item.  Returns the new state and the event payload. -/
def render_again (s : ListState) : ListState × Option Item :=
  let s' := { s with line_to_item := build_rows s.source_items s.items }
  (s', selected_item s')

/-- `List.on_new_items` (trss.py lines 143-149), the `ITEMS_LOADED`
handler: replace the full collection, reset selection and scroll to 0,
refilter, re-render. -/
def on_new_items (s : ListState) (new : List Item) : ListState × Option Item :=
  render_again { s with source_items := new, selected := 0, pad_y := 0,
                        items := filterSort s.query new }

/-- The key `a` branch of `List.handle` (trss.py lines 234-240): toggle the
presence of the `read` key in the query, refilter, re-render. -/
def toggle_filter (s : ListState) : ListState × Option Item :=
  let q := match s.query with | some _ => none | none => some false
  render_again { s with query := q, items := filterSort q s.source_items }

/-- Every group header among the rows built by the render loop declares the
size of the filter of the full collection by its own source. -/
theorem buildRowsGo_header (si : List Item) :
    ∀ (items : List Item) (last : Option String) (i : Nat) (src : String)
      (c : Nat),
      Row.header src c ∈ buildRowsGo si last i items →
      c = (filter_by { read := none, source := some src } si).length := by
  intro items
  induction items with
  | nil => intro last i src c h; exact absurd h (List.not_mem_nil _)
  | cons it rest ih =>
    intro last i src c h
    unfold buildRowsGo at h
    by_cases hl : last = some it.source
    · rw [if_pos hl] at h
      rcases List.mem_cons.mp h with heq | h'
      · exact Row.noConfusion heq
      · exact ih _ _ src c h'
    · rw [if_neg hl] at h
      rcases List.mem_cons.mp h with heq | h'
      · injection heq with h1 h2
        subst h1
        exact h2
      · rcases List.mem_cons.mp h' with heq2 | h''
        · exact Row.noConfusion heq2
        · exact ih _ _ src c h''

/-- The header count the render loop computes is the number of items of
that source in the full collection. -/
theorem filter_by_source_length (si : List Item) (src : String) :
    (filter_by { read := none, source := some src } si).length
      = si.countP fun it => it.source == src := by
  rw [List.countP_eq_length_filter]
  simp only [filter_by]
  have h : List.filter (queryMatches { read := none, source := some src }) si
      = List.filter (fun it => it.source == src) si :=
    List.filter_congr fun it _ => by simp [queryMatches]
  rw [h]

/-- C1 (amended): after an `ItemsLoaded` event or a filter toggle, every
group header row in the projection declares a count equal to the number of
items of that source in the full unfiltered collection — not the number
matching the active query predicate. -/
theorem header_count_full_collection :
    (∀ (s : ListState) (new : List Item) (src : String) (c : Nat),
        Row.header src c ∈ (on_new_items s new).1.line_to_item →
        c = new.countP fun it => it.source == src)
      ∧ ∀ (s : ListState) (src : String) (c : Nat),
        Row.header src c ∈ (toggle_filter s).1.line_to_item →
        c = s.source_items.countP fun it => it.source == src := by
  constructor
  · intro s new src c h
    rw [← filter_by_source_length]
    exact buildRowsGo_header new _ none 0 src c h
  · intro s src c h
    rw [← filter_by_source_length]
    exact buildRowsGo_header s.source_items _ none 0 src c h

/-- Counterexample to C1 as stated: with the unread-only filter active and
a source holding one unread and one read item, the single header declares
count 2 — the full-collection count — while exactly 1 item of that source
matches the active query. -/
theorem header_count_cex :
    Row.header "X" 2 ∈ (on_new_items initList [itemA, itemB]).1.line_to_item
      ∧ (on_new_items initList [itemA, itemB]).1.query = some false
      ∧ List.countP
          (fun it => queryMatches { read := some false, source := some "X" } it)
          [itemA, itemB] = 1
      ∧ (2 : Nat) ≠ 1 := by decide

/-- Witness for the amended C1 at the concrete store of the
counterexample. -/
theorem header_count_witness :
    (2 : Nat) = List.countP (fun it => it.source == "X") [itemA, itemB] :=
  header_count_full_collection.1 initList [itemA, itemB] "X" 2 (by decide)

/-- On a nonempty filtered list the projection starts with a group header
followed by the row of item 0 (`last_source` starts as `None`, which
differs from the first item's source). -/
theorem build_rows_cons (si : List Item) (it : Item) (rest : List Item) :
    build_rows si (it :: rest)
      = Row.header it.source
            (filter_by { read := none, source := some it.source } si).length
          :: Row.item 0
          :: buildRowsGo si (some it.source) 1 rest := by
  simp [build_rows, buildRowsGo]

/-- C2 (amended): after every `ItemsLoaded` event the widget resets
selection and scroll offset to 0 and replaces the full collection; but row
0 of a nonempty projection is a group header, not the first item row, so
the published `ItemActivated` payload is none in every case — also when
the projection is nonempty. -/
theorem on_new_items_resets (s : ListState) (new : List Item) :
    (on_new_items s new).1.selected = 0
      ∧ (on_new_items s new).1.pad_y = 0
      ∧ (on_new_items s new).1.source_items = new
      ∧ (on_new_items s new).1.items = filterSort s.query new
      ∧ (on_new_items s new).2 = none := by
  refine ⟨rfl, rfl, rfl, rfl, ?_⟩
  have hpay : (on_new_items s new).2 = selected_item (on_new_items s new).1 := rfl
  have hitems : (on_new_items s new).1.items = filterSort s.query new := rfl
  have hrows : (on_new_items s new).1.line_to_item
      = build_rows new (filterSort s.query new) := rfl
  have hsel : (on_new_items s new).1.selected = 0 := rfl
  rw [hpay]
  unfold selected_item
  cases hi : filterSort s.query new with
  | nil => simp [hitems, hi]
  | cons it rest =>
    rw [hitems, hi]
    simp only [List.isEmpty_cons, if_neg]
    rw [hsel, hrows, hi, build_rows_cons]
    simp

/-- Witness instantiating the amended C2 at a concrete nonempty load. -/
theorem on_new_items_resets_witness :
    (on_new_items initList [itemA]).1.selected = 0
      ∧ (on_new_items initList [itemA]).2 = none :=
  ⟨(on_new_items_resets initList [itemA]).1,
   (on_new_items_resets initList [itemA]).2.2.2.2⟩

/-- Counterexample to C2 as stated: loading one unread item gives a
nonempty projection — a header row and an item row — yet the published
`ItemActivated` payload is none, and the selection rests on the header,
not on the first item row. -/
theorem on_new_items_payload_cex :
    (on_new_items initList [itemA]).1.items = [itemA]
      ∧ (on_new_items initList [itemA]).1.line_to_item
          = [Row.header "X" 1, Row.item 0]
      ∧ (on_new_items initList [itemA]).1.selected = 0
      ∧ (on_new_items initList [itemA]).2 = none := by decide

/-- The selection and scroll state moved by `List.focus_next` and
`List.focus_prev` (trss.py lines 111-112, 198-220); Python integers are
unbounded, hence `Int`. -/
structure NavState where
  selected : Int
  pad_y : Int
  deriving DecidableEq, Repr

/-- `List.focus_next` (trss.py lines 198-208), selection and scroll effect:
clamp the selection to the last row; a page jump (`n > 1`) snaps the pad
offset to the selection; then the pad offset advances by one only when the
selection has reached `pad_y + curses.LINES`.  `LINES` is the full screen
height `curses.LINES` and `rowCount` is `len(self.line_to_item)`. -/
def focus_next (LINES rowCount n : Int) (s : NavState) : NavState :=
  let sel := min (rowCount - 1) (s.selected + n)
  let py := if n > 1 then sel else s.pad_y
  let py2 := if sel ≥ py + LINES then py + 1 else py
  { selected := sel, pad_y := py2 }

/-- `List.focus_prev` (trss.py lines 210-220), selection and scroll
effect: clamp the selection at 0; a page jump snaps the pad offset to the
selection, otherwise the pad offset retreats by one when the selection
moved just above it. -/
def focus_prev (n : Int) (s : NavState) : NavState :=
  let sel := max 0 (s.selected - n)
  let py :=
    if n > 1 then sel
    else if sel + 1 = s.pad_y then s.pad_y - 1
    else s.pad_y
  { selected := sel, pad_y := py }

/-- The visible viewport drawn by `List.refresh` (trss.py lines 222-223):
`self.pad.refresh(self.pad_y, 0, 0, 0, self.height, self.width)` with
`self.height = curses.LINES - 2` (line 108) shows exactly the pad rows
`pad_y` through `pad_y + (LINES - 2)`. -/
def viewportHas (LINES pad_y row : Int) : Prop :=
  pad_y ≤ row ∧ row ≤ pad_y + (LINES - 2)

/-- C5, failing run: on a screen of `LINES = 5` (viewport rows `pad_y` to
`pad_y + 3`) with a 6-row projection, four single-step downward moves from
the top leave the selection at row 4 with the pad offset still 0 — the
scroll condition of `focus_next` compares against `pad_y + curses.LINES`
instead of the viewport height, so the selected row lies below the visible
viewport. -/
theorem focus_next_leaves_viewport :
    (focus_next 5 6 1 (focus_next 5 6 1 (focus_next 5 6 1 (focus_next 5 6 1
        { selected := 0, pad_y := 0 })))).selected = 4
      ∧ (focus_next 5 6 1 (focus_next 5 6 1 (focus_next 5 6 1 (focus_next 5 6 1
          { selected := 0, pad_y := 0 })))).pad_y = 0
      ∧ ¬ viewportHas 5 0 4 := by
  simp only [viewportHas]
  decide

/-- The scroll state of the `Detail` widget (trss.py lines 242-250):
`self.y` and the current plain-text content. -/
structure DetailState where
  y : Int
  content : String
  deriving DecidableEq, Repr

/-- The scroll keys `Detail.handle` reacts to (trss.py lines 262-271). -/
inductive Key where
  | down
  | up
  | ppage
  | npage
  deriving DecidableEq, Repr

/-- `self.content.count` of the newline character (trss.py line 263). -/
def countNewlines (s : String) : Int :=
  (s.data.filter fun c => c = '\n').length

/-- `Detail.handle` (trss.py lines 262-271) with
`self.height = curses.LINES - 2` (line 247): bounded single-line scrolls
and page jumps of the viewport height. -/
def detail_handle (LINES : Int) (k : Key) (s : DetailState) : DetailState :=
  let lines := countNewlines s.content
  match k with
  | Key.down => if s.y + 1 + LINES ≤ lines then { s with y := s.y + 1 } else s
  | Key.up => if s.y > 0 then { s with y := s.y - 1 } else s
  | Key.ppage => { s with y := max 0 (s.y - (LINES - 2)) }
  | Key.npage => { s with y := min (lines - 1) (s.y + (LINES - 2)) }

/-- C6, failing run: on content with no newline — such as the empty content
shown when `ItemActivated` carries none — a page-down sets the offset to
`min(lines - 1, ...)` with `lines = 0`, i.e. to `-1`: the offset becomes
negative instead of staying clamped to the valid range. -/
theorem detail_npage_negative :
    countNewlines "" = 0
      ∧ (detail_handle 5 Key.npage { y := 0, content := "" }).y = -1
      ∧ (detail_handle 5 Key.npage { y := 0, content := "" }).y < 0 := by decide

end Trss
